import Mathlib

/-!
Verification of the earliest-fit interval-scheduling engine
(src/scheduler.ts and the schedule_tasks loop of src/server.ts).

Instants are modelled as whole minutes since the Unix epoch
(1970-01-01 00:00, a Thursday), with the wall clock equal to that
timeline (one fixed timezone, as the source assumes).  The JavaScript
Date accessors used by the source (getDay, getHours, getMinutes,
getDate, setHours, setDate, setMinutes) are reproduced below; getDate
(day of month) uses the standard civil-from-days calendar algorithm.
-/

/-- Absolute day number of an instant (day 0 is 1970-01-01). -/
def dayIdx (t : Int) : Int := t / 1440

/-- JavaScript Date.getDay: 0 = Sunday .. 6 = Saturday.  1970-01-01 was a
Thursday (= 4). -/
def getDay (t : Int) : Int := (dayIdx t + 4) % 7

/-- JavaScript Date.getHours (hour of day, 0..23). -/
def getHours (t : Int) : Int := (t % 1440) / 60

/-- JavaScript Date.getMinutes (minute of hour, 0..59). -/
def getMinutes (t : Int) : Int := t % 60

/-- Day of month of an absolute day number, by the standard civil
calendar conversion (Gregorian, proleptic). -/
def civilDom (z : Int) : Int :=
  let z2 := z + 719468
  let doe := z2 % 146097
  let yoe := (doe - doe / 1460 + doe / 36524 - doe / 146096) / 365
  let doy := doe - (365 * yoe + yoe / 4 - yoe / 100)
  let mp := (5 * doy + 2) / 153
  doy - (153 * mp + 2) / 5 + 1

/-- JavaScript Date.getDate (day of month, 1..31). -/
def getDate (t : Int) : Int := civilDom (dayIdx t)

/-- Effect of date.setHours(h, 0, 0, 0): same calendar day's midnight
plus h hours (JavaScript normalizes out-of-range h across days). -/
def setHoursToStart (t sh : Int) : Int := dayIdx t * 1440 + sh * 60

/-- A time interval with start and end instants (source: TimeInterval,
whose fields are start and end; end is a reserved word here, so the end
field is named stop). -/
structure TimeInterval where
  start : Int
  stop : Int
deriving Repr, DecidableEq

/-- src/scheduler.ts isWithinWorkingHours: Mon-Fri (getDay 1..5) and
startHour <= getHours < endHour. -/
def isWithinWorkingHours (date sh eh : Int) : Bool :=
  decide (1 ≤ getDay date) && decide (getDay date ≤ 5) &&
    decide (sh ≤ getHours date) && decide (getHours date < eh)

/-- The shared block of src/scheduler.ts lines 62-69 and 77-80: sets the
hour to workStartHour, then moves 3 days forward from a Friday, 2 from a
Saturday, and otherwise 1 (setDate(getDate() + k) adds exactly k days). -/
def advanceToNextWorkStart (t sh : Int) : Int :=
  let t1 := setHoursToStart t sh
  if getDay t1 = 5 then t1 + 3 * 1440
  else if getDay t1 = 6 then t1 + 2 * 1440
  else t1 + 1440

/-- The end-of-day rejection test of src/scheduler.ts lines 73-75,
applied to the buffered potential end time pe:
pe.getHours() > endHour, or pe.getHours() == endHour with
pe.getMinutes() > 0, or pe.getDate() different from t.getDate(). -/
def rejectsDayEnd (t pe eh : Int) : Bool :=
  decide (eh < getHours pe) ||
    (decide (getHours pe = eh) && decide (0 < getMinutes pe)) ||
    decide (getDate pe ≠ getDate t)

/-- The conflict test of src/scheduler.ts line 89:
busySlot.start < potentialEndTime and busySlot.end > currentTryTime. -/
def conflictsWith (t pe : Int) (b : TimeInterval) : Bool :=
  decide (b.start < pe) && decide (t < b.stop)

/-- Outcome of one bounded run of the while loop of findEarliestFitSlot:
a slot was found, the search range was exhausted (the source returns
null), or the iteration bound ran out. -/
inductive FitResult where
  | found (slot : TimeInterval)
  | notFound
  | fuelOut
deriving Repr, DecidableEq

/-- The while loop of src/scheduler.ts lines 50-107, with an explicit
iteration bound (fuel).  Each unfolding is one loop iteration: guard
t < searchEndDate; potentialEndTime past the search end returns null;
a start outside working hours or an end past closing advances to the
next work start and continues; the first conflicting busy interval (in
list order) moves t to its end; otherwise the slot is returned with the
unbuffered end t + durationMinutes. -/
def fitLoop (busy : List TimeInterval) (dur buf sh eh dl : Int) :
    Nat → Int → FitResult
  | 0, _ => .fuelOut
  | fuel + 1, t =>
    if t < dl then
      let pe := t + (dur + buf)
      if dl < pe then .notFound
      else if isWithinWorkingHours t sh eh = false then
        fitLoop busy dur buf sh eh dl fuel (advanceToNextWorkStart t sh)
      else if rejectsDayEnd t pe eh = true then
        fitLoop busy dur buf sh eh dl fuel (advanceToNextWorkStart t sh)
      else
        match busy.find? (conflictsWith t pe) with
        | some b => fitLoop busy dur buf sh eh dl fuel b.stop
        | none => .found ⟨t, t + dur⟩
    else .notFound

/-- An iteration bound large enough for every input on which the source
loop terminates (each iteration either consumes a calendar day of the
search range or consumes one busy interval). -/
def defaultFuel (busy : List TimeInterval) (cursor dl : Int) : Nat :=
  busy.length + ((dl - cursor).toNat / 1440) + 3

/-- src/scheduler.ts findEarliestFitSlot, parameters in source order. -/
def findEarliestFitSlot (searchStartTime durationMinutes : Int)
    (busyTimes : List TimeInterval)
    (workStartHour workEndHour bufferMinutes searchEndDate : Int) :
    Option TimeInterval :=
  match fitLoop busyTimes durationMinutes bufferMinutes workStartHour
      workEndHour searchEndDate
      (defaultFuel busyTimes searchStartTime searchEndDate)
      searchStartTime with
  | .found s => some s
  | _ => none

/-!
The batch loop of src/server.ts schedule_tasks (lines 268-304).

The source mutates JavaScript Date objects in place.  After a successful
placement the cursor variable (nextAvailableStartTime) and the end of
the busy interval just pushed are one and the same Date object
(busySlotEnd); a later commit failure's setMinutes(+1) therefore also
moves that interval's end.  To model this object identity each busy
entry carries a tag; cursorTag records which entry's end currently is
the cursor object (none before the first success).
-/

/-- A busy interval of the batch loop, with a tag modelling the identity
of its end Date object. -/
structure BusyEntry where
  start : Int
  stop : Int
  tag : Nat
deriving Repr, DecidableEq

/-- Forgets the tags, giving the interval list the finder is called with. -/
def toIntervals (busy : List BusyEntry) : List TimeInterval :=
  busy.map (fun e => ⟨e.start, e.stop⟩)

/-- Stable insertion by start instant (helper of sortByStart). -/
def insertByStart (e : BusyEntry) : List BusyEntry → List BusyEntry
  | [] => [e]
  | x :: xs => if x.start < e.start then x :: insertByStart e xs else e :: x :: xs

/-- busyTimes.sort((a, b) => a.start.getTime() - b.start.getTime()):
the stable sort by start instant (JavaScript Array.sort is stable),
realized as a stable insertion sort. -/
def sortByStart : List BusyEntry → List BusyEntry
  | [] => []
  | e :: rest => insertByStart e (sortByStart rest)

/-- Per-task outcome ledger entry (spec section 3 PlacementResult;
source: a push onto scheduledEvents or unscheduledSubtasks). -/
inductive PlacementResult where
  | placed (slot : TimeInterval)
  | unplacedNoSlot
  | unplacedCommitFailed
deriving Repr, DecidableEq

/-- The mutable state of one schedule_tasks run: the busy list, the
search cursor (nextAvailableStartTime), which busy entry's end the
cursor object currently aliases, and the next fresh tag. -/
structure SchedState where
  busy : List BusyEntry
  cursor : Int
  cursorTag : Option Nat
  nextTag : Nat
deriving Repr, DecidableEq

/-- Scheduling constants of src/server.ts lines 121-126: working hours
9-17 and a 15 minute buffer. -/
def SCHEDULING_WORK_DAY_START_HOUR : Int := 9

def SCHEDULING_WORK_DAY_END_HOUR : Int := 17

def SCHEDULING_BUFFER_MINUTES : Int := 15

/-- One iteration of the for loop of src/server.ts lines 271-304 for a
subtask of the given duration; commitOk tells whether the
createCalendarEvent call succeeds.  On success the slot plus buffer is
pushed onto busy, the list is re-sorted by start, and the cursor is the
pushed entry's end object.  On commit failure the cursor is advanced by
one minute; because of the object aliasing this also advances the end
of the busy entry the cursor object belongs to. -/
def scheduleStep (dl : Int) (st : SchedState) (dur : Int) (commitOk : Bool) :
    SchedState × PlacementResult :=
  match findEarliestFitSlot st.cursor dur (toIntervals st.busy)
      SCHEDULING_WORK_DAY_START_HOUR SCHEDULING_WORK_DAY_END_HOUR
      SCHEDULING_BUFFER_MINUTES dl with
  | none => (st, .unplacedNoSlot)
  | some slot =>
    if commitOk then
      let busySlotEnd := slot.stop + SCHEDULING_BUFFER_MINUTES
      ({ busy := sortByStart (st.busy ++ [⟨slot.start, busySlotEnd, st.nextTag⟩]),
         cursor := busySlotEnd,
         cursorTag := some st.nextTag,
         nextTag := st.nextTag + 1 }, .placed slot)
    else
      ({ busy := st.busy.map (fun e =>
           if st.cursorTag = some e.tag then ⟨e.start, e.stop + 1, e.tag⟩ else e),
         cursor := st.cursor + 1,
         cursorTag := st.cursorTag,
         nextTag := st.nextTag }, .unplacedCommitFailed)

/-- The whole for loop over the subtask list: each subtask is a
(duration, commit outcome) pair; returns the final state and the
per-subtask placement ledger in input order. -/
def scheduleRun (dl : Int) : SchedState → List (Int × Bool) →
    SchedState × List PlacementResult
  | st, [] => (st, [])
  | st, (d, ok) :: rest =>
    let out := scheduleStep dl st d ok
    let outR := scheduleRun dl out.1 rest
    (outR.1, out.2 :: outR.2)

/-- The (cursor, duration) arguments passed to findEarliestFitSlot, one
per subtask: the for loop calls the finder unconditionally for every
subtask. -/
def scheduleRunCalls (dl : Int) : SchedState → List (Int × Bool) →
    List (Int × Int)
  | _, [] => []
  | st, (d, ok) :: rest =>
    (st.cursor, d) :: scheduleRunCalls dl (scheduleStep dl st d ok).1 rest

/-- Busy entries for the initial snapshot, tagged 0, 1, ... (distinct
Date objects, none of them the cursor). -/
def tagFrom : Nat → List TimeInterval → List BusyEntry
  | _, [] => []
  | n, iv :: rest => ⟨iv.start, iv.stop, n⟩ :: tagFrom (n + 1) rest

/-- State at the start of a run: the initial busy snapshot (in the order
delivered by the free/busy query; the source does not sort it) and the
cursor at the window start, aliasing no busy entry. -/
def initState (initialBusy : List TimeInterval) (windowStart : Int) : SchedState :=
  { busy := tagFrom 0 initialBusy,
    cursor := windowStart,
    cursorTag := none,
    nextTag := initialBusy.length }

/-- The SubtaskSchema validation of src/server.ts lines 106-110:
duration_minutes is z.number().int(), i.e. the only constraint on the
(floating point) number is integrality -- nothing about its sign. -/
def subtaskSchemaAccepts (durationMinutes : ℚ) : Bool :=
  decide (durationMinutes.den = 1)

/-- Half-open interval overlap (spec section 3): a.start < b.end and
b.start < a.end. -/
def overlaps (a b : TimeInterval) : Prop := a.start < b.stop ∧ b.start < a.stop

instance (a b : TimeInterval) : Decidable (overlaps a b) := by
  unfold overlaps; infer_instance

/-- A placed slot extended by the run's 15 minute buffer, as pushed onto
the busy set. -/
def bufferedOf (p : TimeInterval) : TimeInterval := ⟨p.start, p.stop + 15⟩

/-- The intervals of the Placed results, in order. -/
def placedOf : List PlacementResult → List TimeInterval
  | [] => []
  | .placed s :: rest => s :: placedOf rest
  | _ :: rest => placedOf rest

/-- Number of calendar days touched by the range from cursor to
deadline, boundary days included. -/
def daysBetween (cursor dl : Int) : Nat := (dayIdx dl - dayIdx cursor + 1).toNat

/-- Coverage invariant of the batch loop: every placed slot (extended by
the 15 minute buffer) and every interval of the initial snapshot is
covered by some current busy entry with the same start and an end at
least as late (ends only ever grow, by the commit-failure aliasing). -/
def BusyCovers (ib placed : List TimeInterval) (busy : List BusyEntry) : Prop :=
  (∀ p ∈ placed, ∃ e ∈ busy, e.start = p.start ∧ p.stop + 15 ≤ e.stop) ∧
  (∀ b ∈ ib, ∃ e ∈ busy, e.start = b.start ∧ b.stop ≤ e.stop)

/-- Buffered placed slots are pairwise non-overlapping and clear of the
initial busy snapshot. -/
def PlacedOk (ib placed : List TimeInterval) : Prop :=
  List.Pairwise (fun p q => ¬ overlaps (bufferedOf p) (bufferedOf q)) placed ∧
  ∀ p ∈ placed, ∀ b ∈ ib, ¬ overlaps (bufferedOf p) b

/-!
Helper lemmas about the time model and the finder loop.
-/

theorem dayIdx_mono {a b : Int} (h : a ≤ b) : dayIdx a ≤ dayIdx b := by
  simp only [dayIdx]; omega

theorem advance_gt (t sh : Int) (hsh : 0 ≤ sh) : t < advanceToNextWorkStart t sh := by
  simp only [advanceToNextWorkStart, setHoursToStart, dayIdx, getDay]
  split_ifs <;> omega

theorem advance_day (t sh : Int) (hsh : 0 ≤ sh) :
    dayIdx t + 1 ≤ dayIdx (advanceToNextWorkStart t sh) := by
  simp only [advanceToNextWorkStart, setHoursToStart, dayIdx, getDay]
  split_ifs <;> omega

theorem conflictsWith_iff (t pe : Int) (b : TimeInterval) :
    conflictsWith t pe b = true ↔ (b.start < pe ∧ t < b.stop) := by
  simp [conflictsWith]

theorem rejectsDayEnd_sameDay {t pe : Int} (eh : Int) (h : dayIdx pe = dayIdx t) :
    rejectsDayEnd t pe eh = true ↔ eh * 60 < pe % 1440 := by
  have h60 : pe % 60 = (pe % 1440) % 60 := by omega
  unfold rejectsDayEnd getHours getMinutes getDate
  rw [h]
  simp only [Bool.or_eq_true, Bool.and_eq_true, decide_eq_true_eq, ne_eq,
    not_true_eq_false, or_false]
  omega

theorem fitLoop_found_mono {busy : List TimeInterval} {dur buf sh eh dl : Int}
    (hsh : 0 ≤ sh) :
    ∀ (fuel : Nat) (t : Int) (s : TimeInterval),
      fitLoop busy dur buf sh eh dl fuel t = .found s → t ≤ s.start := by
  intro fuel
  induction fuel with
  | zero => intro t s h; exact absurd h (by simp [fitLoop])
  | succ n ih =>
    intro t s h
    simp only [fitLoop] at h
    split at h
    · split at h
      · exact absurd h (by simp)
      · split at h
        · exact le_trans (le_of_lt (advance_gt t sh hsh)) (ih _ _ h)
        · split at h
          · exact le_trans (le_of_lt (advance_gt t sh hsh)) (ih _ _ h)
          · split at h
            · next b hb =>
                have hc := (conflictsWith_iff _ _ _).mp (List.find?_some hb)
                exact le_trans (le_of_lt hc.2) (ih _ _ h)
            · cases h; exact le_refl _
    · exact absurd h (by simp)

theorem fitLoop_found_checks {busy : List TimeInterval} {dur buf sh eh dl : Int} :
    ∀ (fuel : Nat) (t : Int) (s : TimeInterval),
      fitLoop busy dur buf sh eh dl fuel t = .found s →
      s.stop = s.start + dur ∧
      isWithinWorkingHours s.start sh eh = true ∧
      rejectsDayEnd s.start (s.start + (dur + buf)) eh = false ∧
      (∀ b ∈ busy, conflictsWith s.start (s.start + (dur + buf)) b = false) ∧
      s.start < dl ∧ s.start + (dur + buf) ≤ dl := by
  intro fuel
  induction fuel with
  | zero => intro t s h; exact absurd h (by simp [fitLoop])
  | succ n ih =>
    intro t s h
    simp only [fitLoop] at h
    split at h
    · next hguard =>
      split at h
      · exact absurd h (by simp)
      · next hpe =>
        split at h
        · exact ih _ _ h
        · next hwh =>
          split at h
          · exact ih _ _ h
          · next hrej =>
            split at h
            · exact ih _ _ h
            · next hnone =>
              cases h
              refine ⟨rfl, ?_, ?_, ?_, hguard, Int.not_lt.mp hpe⟩
              · exact eq_true_of_ne_false hwh
              · exact eq_false_of_ne_true hrej
              · intro b hb
                simpa using List.find?_eq_none.mp hnone b hb
    · exact absurd h (by simp)

theorem countP_le_countP {l : List TimeInterval} {p q : TimeInterval → Bool}
    (h : ∀ x ∈ l, q x = true → p x = true) : l.countP q ≤ l.countP p := by
  induction l with
  | nil => simp
  | cons x xs ih =>
    have hx := h x (by simp)
    have hxs := ih (fun y hy => h y (List.mem_cons_of_mem x hy))
    rw [List.countP_cons, List.countP_cons]
    by_cases hq : q x = true
    · rw [hx hq]; simp [hq]; omega
    · simp only [Bool.not_eq_true] at hq
      simp [hq]; split <;> omega

theorem countP_succ_le {l : List TimeInterval} {b : TimeInterval}
    {p q : TimeInterval → Bool} (hb : b ∈ l) (hpb : p b = true) (hqb : q b = false)
    (h : ∀ x ∈ l, q x = true → p x = true) : l.countP q + 1 ≤ l.countP p := by
  induction l with
  | nil => cases hb
  | cons x xs ih =>
    rw [List.countP_cons, List.countP_cons]
    rcases List.mem_cons.mp hb with hbx | hbxs
    · subst hbx
      have hxs := countP_le_countP (fun y hy => h y (List.mem_cons_of_mem b hy))
      simp [hpb, hqb]; omega
    · have := ih hbxs (fun y hy => h y (List.mem_cons_of_mem x hy))
      have hx := h x (by simp)
      by_cases hq : q x = true
      · rw [hx hq]; simp [hq]; omega
      · simp only [Bool.not_eq_true] at hq
        simp [hq]; split <;> omega

theorem fitLoop_fuel_enough {busy : List TimeInterval} {dur buf sh eh dl : Int}
    (hsh : 0 ≤ sh) :
    ∀ (fuel : Nat) (t : Int),
      (if t < dl then
        busy.countP (fun b => decide (t < b.stop)) + (dayIdx dl - dayIdx t).toNat + 2
       else 1) ≤ fuel →
      fitLoop busy dur buf sh eh dl fuel t ≠ .fuelOut := by
  intro fuel
  induction fuel with
  | zero => intro t h; split at h <;> omega
  | succ n ih =>
    intro t h
    simp only [fitLoop]
    split
    · next hguard =>
      rw [if_pos hguard] at h
      split
      · simp
      · split
        · refine ih (advanceToNextWorkStart t sh) ?_
          have h1 := advance_gt t sh hsh
          have h2 := advance_day t sh hsh
          have h3 := dayIdx_mono (le_of_lt hguard)
          have h4 : busy.countP (fun b => decide (advanceToNextWorkStart t sh < b.stop)) ≤
              busy.countP (fun b => decide (t < b.stop)) := by
            refine countP_le_countP ?_
            intro x _ hx
            simp only [decide_eq_true_eq] at hx ⊢
            omega
          split
          · next hlt =>
            have h5 := dayIdx_mono (le_of_lt hlt)
            omega
          · omega
        · split
          · refine ih (advanceToNextWorkStart t sh) ?_
            have h1 := advance_gt t sh hsh
            have h2 := advance_day t sh hsh
            have h3 := dayIdx_mono (le_of_lt hguard)
            have h4 : busy.countP (fun b => decide (advanceToNextWorkStart t sh < b.stop)) ≤
                busy.countP (fun b => decide (t < b.stop)) := by
              refine countP_le_countP ?_
              intro x _ hx
              simp only [decide_eq_true_eq] at hx ⊢
              omega
            split
            · next hlt =>
              have h5 := dayIdx_mono (le_of_lt hlt)
              omega
            · omega
          · split
            · next b hb =>
              refine ih b.stop ?_
              have hmem := List.mem_of_find?_eq_some hb
              have hc := (conflictsWith_iff _ _ _).mp (List.find?_some hb)
              have h4 : busy.countP (fun x => decide (b.stop < x.stop)) + 1 ≤
                  busy.countP (fun x => decide (t < x.stop)) := by
                refine countP_succ_le hmem ?_ ?_ ?_
                · simpa using hc.2
                · simp
                · intro x _ hx
                  simp only [decide_eq_true_eq] at hx ⊢
                  omega
              have h5 := dayIdx_mono (le_of_lt hc.2)
              have h3 := dayIdx_mono (le_of_lt hguard)
              split
              · next hlt =>
                have h6 := dayIdx_mono (le_of_lt hlt)
                omega
              · omega
            · simp
    · simp

theorem findSlot_some_iff {c dur : Int} {busy : List TimeInterval}
    {sh eh buf dl : Int} {s : TimeInterval} :
    findEarliestFitSlot c dur busy sh eh buf dl = some s ↔
    fitLoop busy dur buf sh eh dl (defaultFuel busy c dl) c = .found s := by
  unfold findEarliestFitSlot
  rcases hr : fitLoop busy dur buf sh eh dl (defaultFuel busy c dl) c with s' | _ | _ <;>
    simp [hr]

theorem defaultFuel_succ (busy : List TimeInterval) (c dl : Int) :
    defaultFuel busy c dl = (busy.length + ((dl - c).toNat / 1440) + 2) + 1 := rfl

theorem fitLoop_one (busy : List TimeInterval) (dur buf sh eh dl : Int)
    (fuel : Nat) (t : Int) :
    fitLoop busy dur buf sh eh dl (fuel + 1) t =
      if t < dl then
        if dl < t + (dur + buf) then .notFound
        else if isWithinWorkingHours t sh eh = false then
          fitLoop busy dur buf sh eh dl fuel (advanceToNextWorkStart t sh)
        else if rejectsDayEnd t (t + (dur + buf)) eh = true then
          fitLoop busy dur buf sh eh dl fuel (advanceToNextWorkStart t sh)
        else
          match busy.find? (conflictsWith t (t + (dur + buf))) with
          | some b => fitLoop busy dur buf sh eh dl fuel b.stop
          | none => .found ⟨t, t + dur⟩
      else .notFound := rfl

theorem insertByStart_mem {a e : BusyEntry} {l : List BusyEntry} :
    a ∈ insertByStart e l ↔ a = e ∨ a ∈ l := by
  induction l with
  | nil => simp [insertByStart]
  | cons x xs ih =>
    simp only [insertByStart]
    split
    · simp only [List.mem_cons, ih]
      tauto
    · simp only [List.mem_cons]

theorem sortByStart_mem {a : BusyEntry} {l : List BusyEntry} :
    a ∈ sortByStart l ↔ a ∈ l := by
  induction l with
  | nil => simp [sortByStart]
  | cons x xs ih =>
    simp only [sortByStart, insertByStart_mem, ih, List.mem_cons]

theorem tagFrom_covers {ib : List TimeInterval} :
    ∀ (n : Nat) (b : TimeInterval), b ∈ ib →
      ∃ e ∈ tagFrom n ib, e.start = b.start ∧ e.stop = b.stop := by
  induction ib with
  | nil => intro n b hb; cases hb
  | cons x xs ih =>
    intro n b hb
    rcases List.mem_cons.mp hb with hbx | hbxs
    · subst hbx
      exact ⟨⟨b.start, b.stop, n⟩, by simp [tagFrom], rfl, rfl⟩
    · obtain ⟨e, he, hp⟩ := ih (n + 1) b hbxs
      exact ⟨e, by simp [tagFrom, he], hp⟩

theorem finder_spec {c d : Int} {ivs : List TimeInterval} {sh eh buf dl : Int}
    {s : TimeInterval} (h : findEarliestFitSlot c d ivs sh eh buf dl = some s) :
    s.stop = s.start + d ∧
    ∀ iv ∈ ivs, ¬ (iv.start < s.start + (d + buf) ∧ s.start < iv.stop) := by
  have hf := findSlot_some_iff.mp h
  obtain ⟨h1, _, _, h4, _, _⟩ := fitLoop_found_checks _ _ _ hf
  refine ⟨h1, fun iv hiv => ?_⟩
  have := h4 iv hiv
  rw [← conflictsWith_iff s.start (s.start + (d + buf)) iv]
  simp [this]

theorem finder_mono {c d : Int} {ivs : List TimeInterval} {sh eh buf dl : Int}
    {s : TimeInterval} (hsh : 0 ≤ sh)
    (h : findEarliestFitSlot c d ivs sh eh buf dl = some s) : c ≤ s.start :=
  fitLoop_found_mono hsh _ _ _ (findSlot_some_iff.mp h)

theorem placedOf_cons (r : PlacementResult) (rs : List PlacementResult) :
    placedOf (r :: rs) = placedOf [r] ++ placedOf rs := by
  cases r <;> simp [placedOf]

theorem step_invariant {ib placed : List TimeInterval} {dl : Int} {st : SchedState}
    {d : Int} {ok : Bool} (hC : BusyCovers ib placed st.busy) (hP : PlacedOk ib placed) :
    BusyCovers ib (placed ++ placedOf [(scheduleStep dl st d ok).2])
      (scheduleStep dl st d ok).1.busy ∧
    PlacedOk ib (placed ++ placedOf [(scheduleStep dl st d ok).2]) := by
  obtain ⟨hC1, hC2⟩ := hC
  obtain ⟨hP1, hP2⟩ := hP
  rcases hf : findEarliestFitSlot st.cursor d (toIntervals st.busy)
      SCHEDULING_WORK_DAY_START_HOUR SCHEDULING_WORK_DAY_END_HOUR
      SCHEDULING_BUFFER_MINUTES dl with _ | slot
  · simp only [scheduleStep, hf, placedOf, List.append_nil]
    exact ⟨⟨hC1, hC2⟩, hP1, hP2⟩
  · have hspec := finder_spec hf
    have hstop : slot.stop = slot.start + d := hspec.1
    have hncE : ∀ e ∈ st.busy,
        ¬ (e.start < slot.start + (d + 15) ∧ slot.start < e.stop) := by
      intro e he
      have hm : (⟨e.start, e.stop⟩ : TimeInterval) ∈ toIntervals st.busy :=
        List.mem_map_of_mem _ he
      have := hspec.2 _ hm
      simpa [SCHEDULING_BUFFER_MINUTES] using this
    cases ok
    · -- commit failure: cursor nudge, busy ends may grow by one minute
      simp only [scheduleStep, hf, Bool.false_eq_true, if_neg, placedOf,
        List.append_nil]
      refine ⟨⟨?_, ?_⟩, hP1, hP2⟩
      · intro p hp
        obtain ⟨e, he, he1, he2⟩ := hC1 p hp
        refine ⟨if st.cursorTag = some e.tag then ⟨e.start, e.stop + 1, e.tag⟩ else e,
          List.mem_map_of_mem _ he, ?_⟩
        split
        · refine ⟨he1, ?_⟩
          show p.stop + 15 ≤ e.stop + 1
          omega
        · exact ⟨he1, he2⟩
      · intro b hb
        obtain ⟨e, he, he1, he2⟩ := hC2 b hb
        refine ⟨if st.cursorTag = some e.tag then ⟨e.start, e.stop + 1, e.tag⟩ else e,
          List.mem_map_of_mem _ he, ?_⟩
        split
        · refine ⟨he1, ?_⟩
          show b.stop ≤ e.stop + 1
          omega
        · exact ⟨he1, he2⟩
    · -- commit success: slot plus buffer pushed onto busy
      simp only [scheduleStep, hf, placedOf, List.append_nil]
      simp only [SCHEDULING_BUFFER_MINUTES]
      have hnew : (⟨slot.start, slot.stop + 15, st.nextTag⟩ : BusyEntry) ∈
          sortByStart (st.busy ++ [⟨slot.start, slot.stop + 15, st.nextTag⟩]) := by
        rw [sortByStart_mem]
        simp
      have hold : ∀ e ∈ st.busy, e ∈
          sortByStart (st.busy ++ [⟨slot.start, slot.stop + 15, st.nextTag⟩]) := by
        intro e he
        rw [sortByStart_mem]
        exact List.mem_append_left _ he
      have hsep : ∀ p ∈ placed, ¬ overlaps (bufferedOf p) (bufferedOf slot) := by
        intro p hp
        obtain ⟨e, he, he1, he2⟩ := hC1 p hp
        have := hncE e he
        simp only [overlaps, bufferedOf]
        simp only [not_and] at this ⊢
        omega
      have hsepIb : ∀ b ∈ ib, ¬ overlaps (bufferedOf slot) b := by
        intro b hb
        obtain ⟨e, he, he1, he2⟩ := hC2 b hb
        have := hncE e he
        simp only [overlaps, bufferedOf]
        simp only [not_and] at this ⊢
        omega
      refine ⟨⟨?_, ?_⟩, ?_, ?_⟩
      · intro p hp
        rcases List.mem_append.mp hp with hpo | hpn
        · obtain ⟨e, he, he1, he2⟩ := hC1 p hpo
          exact ⟨e, hold e he, he1, he2⟩
        · simp at hpn
          subst hpn
          exact ⟨_, hnew, rfl, le_refl _⟩
      · intro b hb
        obtain ⟨e, he, he1, he2⟩ := hC2 b hb
        exact ⟨e, hold e he, he1, he2⟩
      · rw [List.pairwise_append]
        refine ⟨hP1, by simp, ?_⟩
        intro a ha b hb
        simp at hb
        subst hb
        exact hsep a ha
      · intro p hp b hb
        rcases List.mem_append.mp hp with hpo | hpn
        · exact hP2 p hpo b hb
        · simp at hpn
          subst hpn
          exact hsepIb b hb

theorem run_invariant {ib : List TimeInterval} {dl : Int} :
    ∀ (subs : List (Int × Bool)) (st : SchedState) (placed : List TimeInterval),
      BusyCovers ib placed st.busy → PlacedOk ib placed →
      BusyCovers ib (placed ++ placedOf (scheduleRun dl st subs).2)
        (scheduleRun dl st subs).1.busy ∧
      PlacedOk ib (placed ++ placedOf (scheduleRun dl st subs).2) := by
  intro subs
  induction subs with
  | nil =>
    intro st placed hC hP
    simpa [scheduleRun, placedOf] using And.intro hC hP
  | cons x rest ih =>
    intro st placed hC hP
    obtain ⟨d, ok⟩ := x
    have hstep := @step_invariant ib placed dl st d ok hC hP
    have hrec := ih (scheduleStep dl st d ok).1
      (placed ++ placedOf [(scheduleStep dl st d ok).2]) hstep.1 hstep.2
    simp only [scheduleRun]
    rw [placedOf_cons, ← List.append_assoc]
    exact hrec

theorem initState_covers (ib : List TimeInterval) (ws : Int) :
    BusyCovers ib [] (initState ib ws).busy := by
  constructor
  · intro p hp
    cases hp
  · intro b hb
    obtain ⟨e, he, h1, h2⟩ := tagFrom_covers 0 b hb
    exact ⟨e, he, h1, le_of_eq h2.symm⟩

theorem withinHours_props {t sh eh : Int} (h : isWithinWorkingHours t sh eh = true) :
    1 ≤ getDay t ∧ getDay t ≤ 5 ∧ sh ≤ getHours t ∧ getHours t < eh := by
  simp only [isWithinWorkingHours, Bool.and_eq_true, decide_eq_true_eq] at h
  exact ⟨h.1.1.1, h.1.1.2, h.1.2, h.2⟩

theorem rejects_false_getDate {t pe eh : Int} (h : rejectsDayEnd t pe eh = false) :
    getDate pe = getDate t := by
  simp only [rejectsDayEnd, Bool.or_eq_false_iff, Bool.and_eq_false_iff,
    decide_eq_false_iff_not, ne_eq, not_not] at h
  exact h.2

/-!
Claim theorems.  Concrete instants (minutes since the epoch):
Monday 1970-01-05 08:00 = 6240, 09:00 = 6300, 09:30 = 6330,
12:00 = 6480, 16:30 = 6750, 17:00 = 6780; Tuesday 1970-01-06
09:00 = 7740, 09:30 = 7770, 17:00 = 8220; Friday 1970-01-09
17:00 = 12540; Monday 2026-01-05 09:00 = 29460060.
-/

/-- Claim C1: the claim (and spec scenario A) says a 30-minute request
with the cursor at Monday 08:00, empty busy set, hours 9-17 and buffer
15 is placed at Monday 09:00-09:30, i.e. a cursor before opening hours
on an eligible weekday advances to that same day's start hour.  The code
instead always advances a full day when the cursor is outside working
hours, so the slot is Tuesday 09:00-09:30 -- even though an identical
search started at Monday 09:00 shows the Monday slot passes every other
test.  This contradicts the function's own contract of returning the
earliest available slot. -/
theorem before_hours_cursor_skips_full_day :
    findEarliestFitSlot 6240 30 [] 9 17 15 12540 = some ⟨7740, 7770⟩ ∧
    getDay 6240 = 1 ∧ getHours 6240 = 8 ∧
    getDay 7740 = 2 ∧ getHours 7740 = 9 ∧
    findEarliestFitSlot 6300 30 [] 9 17 15 12540 = some ⟨6300, 6330⟩ ∧
    getDay 6300 = 1 ∧ getHours 6300 = 9 := by decide

/-- Claim C2, counterexample: a slot whose unbuffered end is exactly
endHour:00 (Monday 16:30 + 30 min = 17:00) is NOT accepted when the
buffer is 15 minutes: the finder skips to Tuesday 09:00, because the
end-of-day test is applied to the buffered end 17:15, not to the
unbuffered end. -/
theorem unbuffered_end_at_close_rejected :
    getDay 6750 = 1 ∧ getHours 6750 = 16 ∧ getMinutes 6750 = 30 ∧
    getHours (6750 + 30) = 17 ∧ getMinutes (6750 + 30) = 0 ∧
    findEarliestFitSlot 6750 30 [] 9 17 15 8220 = some ⟨7740, 7770⟩ ∧
    (⟨7740, 7770⟩ : TimeInterval) ≠ ⟨6750, 6780⟩ := by decide

/-- Claim C2, amended: the end-of-day test is applied to the buffered
end t + durationMinutes + bufferMinutes.  For a trial start within
working hours whose buffered end lands on the same calendar day, the
slot is accepted exactly when the buffered end's time of day is at most
endHour:00; otherwise the trial start is rejected and any slot
eventually returned starts strictly later. -/
theorem dayEnd_test_uses_buffered_end (t dur buf sh eh dl : Int)
    (hsh : 0 ≤ sh) (hw : isWithinWorkingHours t sh eh = true) (hg : t < dl)
    (hpe : t + (dur + buf) ≤ dl) (hday : dayIdx (t + (dur + buf)) = dayIdx t) :
    ((t + (dur + buf)) % 1440 ≤ eh * 60 →
      findEarliestFitSlot t dur [] sh eh buf dl = some ⟨t, t + dur⟩) ∧
    (eh * 60 < (t + (dur + buf)) % 1440 →
      ∀ s, findEarliestFitSlot t dur [] sh eh buf dl = some s → t < s.start) := by
  constructor
  · intro hle
    rw [findSlot_some_iff, defaultFuel_succ, fitLoop_one]
    rw [if_pos hg]
    rw [if_neg (by omega : ¬ dl < t + (dur + buf))]
    rw [if_neg (by simp [hw] : ¬ isWithinWorkingHours t sh eh = false)]
    have hr : rejectsDayEnd t (t + (dur + buf)) eh = false := by
      rw [Bool.eq_false_iff, Ne, rejectsDayEnd_sameDay eh hday]
      omega
    rw [if_neg (by simp [hr] : ¬ rejectsDayEnd t (t + (dur + buf)) eh = true)]
    simp [List.find?]
  · intro hgt s hs
    have hfnd := findSlot_some_iff.mp hs
    rw [defaultFuel_succ, fitLoop_one] at hfnd
    rw [if_pos hg] at hfnd
    rw [if_neg (by omega : ¬ dl < t + (dur + buf))] at hfnd
    rw [if_neg (by simp [hw] : ¬ isWithinWorkingHours t sh eh = false)] at hfnd
    have hr : rejectsDayEnd t (t + (dur + buf)) eh = true := by
      rw [rejectsDayEnd_sameDay eh hday]
      omega
    rw [if_pos hr] at hfnd
    have hmono := fitLoop_found_mono hsh _ _ _ hfnd
    have hadv := advance_gt t sh hsh
    omega

/-- Witness for the amended C2 theorem at Monday 09:00, duration 30,
buffer 15, hours 9-17, deadline Tuesday 17:00. -/
theorem dayEnd_test_uses_buffered_end_witness :
    (0 : Int) ≤ 9 ∧ isWithinWorkingHours 6300 9 17 = true ∧
    (6300 : Int) < 8220 ∧ (6300 : Int) + (30 + 15) ≤ 8220 ∧
    dayIdx (6300 + (30 + 15)) = dayIdx 6300 ∧
    ((((6300 : Int) + (30 + 15)) % 1440 ≤ 17 * 60 →
        findEarliestFitSlot 6300 30 [] 9 17 15 8220 = some ⟨6300, 6300 + 30⟩) ∧
      (17 * 60 < ((6300 : Int) + (30 + 15)) % 1440 →
        ∀ s, findEarliestFitSlot 6300 30 [] 9 17 15 8220 = some s → 6300 < s.start)) :=
  ⟨by decide, by decide, by decide, by decide, by decide,
    dayEnd_test_uses_buffered_end 6300 30 15 9 17 8220 (by decide) (by decide)
      (by decide) (by decide) (by decide)⟩

/-- Claim C3: in a run where the first 30-minute subtask commits
successfully (placed Monday 09:00-09:30, busy entry 09:00-09:45) and the
second one's commit fails, the failure is recorded and the cursor moves
one minute (09:45 to 09:46) -- but the busy set is NOT left unchanged:
the cursor variable is the same Date object as the end of the busy entry
pushed for the first subtask, so that entry's end also moves from 6345
to 6346.  The claim (and the spec's interval immutability) says no
existing interval's start or end is modified. -/
theorem commit_failure_mutates_previous_busy_end :
    (scheduleRun 12540 (initState [] 6300) [(30, true), (30, false)]).2 =
      [PlacementResult.placed ⟨6300, 6330⟩, PlacementResult.unplacedCommitFailed] ∧
    (scheduleRun 12540 (initState [] 6300) [(30, true), (30, false)]).1.cursor = 6346 ∧
    (scheduleRun 12540 (initState [] 6300) [(30, true), (30, false)]).1.busy =
      [⟨6300, 6346, 0⟩] ∧
    bufferedOf ⟨6300, 6330⟩ = ⟨6300, 6345⟩ ∧ (6345 : Int) ≠ 6346 := by decide

/-- Claim C4: in any one batch run the buffered placed intervals are
pairwise non-overlapping (half-open overlap) and none of them overlaps
any interval of the initial busy snapshot. -/
theorem batch_placed_no_overlap (ib : List TimeInterval) (ws dl : Int)
    (subs : List (Int × Bool)) :
    List.Pairwise (fun p q => ¬ overlaps (bufferedOf p) (bufferedOf q))
      (placedOf (scheduleRun dl (initState ib ws) subs).2) ∧
    ∀ p ∈ placedOf (scheduleRun dl (initState ib ws) subs).2,
      ∀ b ∈ ib, ¬ overlaps (bufferedOf p) b := by
  have h := @run_invariant ib dl subs (initState ib ws) []
    (initState_covers ib ws) ⟨List.Pairwise.nil, by simp⟩
  have h2 := h.2
  simp only [List.nil_append] at h2
  exact h2

/-- Witness for C4: a concrete run with one initial busy interval and
one placed subtask. -/
theorem batch_placed_no_overlap_witness :
    ¬ overlaps (bufferedOf ⟨6300, 6330⟩) ⟨6400, 6500⟩ :=
  (batch_placed_no_overlap [⟨6400, 6500⟩] 6300 12540 [(30, true)]).2
    ⟨6300, 6330⟩ (by decide) ⟨6400, 6500⟩ (by decide)

/-- Claim C5, counterexample: first, when durationMinutes plus
bufferMinutes exceeds the working-day span the finder does NOT always
return null: from Monday 2026-01-05 09:00 with duration 44625 and buffer
15 (31 days, far beyond the 480-minute day span) the buffered end is
2026-02-05 09:00, whose day of month (5) equals the start's, so the
getDate-based same-day test passes and a month-long slot is returned.
Second, the claimed iteration bound (busy intervals plus calendar days
between cursor and deadline) is one short: from Monday 07:00 with
deadline Monday 23:00 and no busy intervals the loop needs two
iterations (one day-advance past the deadline, one guard exit), but the
claimed bound gives fuel for one. -/
theorem liveness_claim_counterexample :
    ((17 - 9) * 60 < 44625 + 15 ∧
      findEarliestFitSlot 29460060 44625 [] 9 17 15 29512380 =
        some ⟨29460060, 29504685⟩ ∧
      getDate 29460060 = 5 ∧ getDate (29460060 + (44625 + 15)) = 5 ∧
      dayIdx (29460060 + (44625 + 15)) ≠ dayIdx 29460060) ∧
    fitLoop [] 30 15 9 17 7140
      (List.length ([] : List TimeInterval) + daysBetween 6180 7140) 6180 =
      FitResult.fuelOut := by decide

/-- Claim C5, amended: for well-formed input (cursor at most deadline,
positive duration, non-negative startHour) the finder's loop terminates
within busy-count plus calendar-days plus one iterations; and when
duration plus buffer exceeds the working-day span, any slot it returns
(instead of null) is one whose buffered end falls on a different
absolute day with the same day of month as its start -- the getDate
collision exhibited by the counterexample, which needs the buffered
duration to span at least a full month. -/
theorem finder_terminates_within_bound (busy : List TimeInterval)
    (dur buf sh eh dl c : Int) (hsh : 0 ≤ sh) (hcd : c ≤ dl) (_hdur : 0 < dur) :
    fitLoop busy dur buf sh eh dl (busy.length + daysBetween c dl + 1) c ≠
      FitResult.fuelOut ∧
    ((eh - sh) * 60 < dur + buf →
      ∀ s, findEarliestFitSlot c dur busy sh eh buf dl = some s →
        dayIdx (s.start + (dur + buf)) ≠ dayIdx s.start ∧
        getDate (s.start + (dur + buf)) = getDate s.start) := by
  constructor
  · refine fitLoop_fuel_enough hsh _ c ?_
    have hd := dayIdx_mono hcd
    have hcount : List.countP (fun b => decide (c < b.stop)) busy ≤ busy.length :=
      List.countP_le_length _
    simp only [daysBetween]
    split
    · omega
    · omega
  · intro hspan s hs
    have hfnd := findSlot_some_iff.mp hs
    obtain ⟨h1, h2, h3, h4, h5, h6⟩ := fitLoop_found_checks _ _ _ hfnd
    have hwh := withinHours_props h2
    have htod : sh * 60 ≤ s.start % 1440 := by
      have hh := hwh.2.2.1
      simp only [getHours] at hh
      omega
    constructor
    · intro hdayeq
      have hrej : rejectsDayEnd s.start (s.start + (dur + buf)) eh = true := by
        rw [rejectsDayEnd_sameDay eh hdayeq]
        simp only [dayIdx] at hdayeq
        omega
      rw [h3] at hrej
      cases hrej
    · exact rejects_false_getDate h3

/-- Witness for the amended C5 theorem: empty busy set, cursor Monday
09:00, hours 9-17, duration 30, buffer 15, deadline Friday 17:00. -/
theorem finder_terminates_within_bound_witness :
    (0 : Int) ≤ 9 ∧ (6300 : Int) ≤ 12540 ∧ (0 : Int) < 30 ∧
    (fitLoop [] 30 15 9 17 12540
        (List.length ([] : List TimeInterval) + daysBetween 6300 12540 + 1) 6300 ≠
        FitResult.fuelOut ∧
      (((17 : Int) - 9) * 60 < 30 + 15 →
        ∀ s, findEarliestFitSlot 6300 30 [] 9 17 15 12540 = some s →
          dayIdx (s.start + (30 + 15)) ≠ dayIdx s.start ∧
          getDate (s.start + (30 + 15)) = getDate s.start)) :=
  ⟨by decide, by decide, by decide,
    finder_terminates_within_bound [] 30 15 9 17 12540 6300 (by decide)
      (by decide) (by decide)⟩

/-- Claim C6: the conflict test is exactly the strict half-open overlap
of the busy interval with the buffered candidate (busy.start < buffered
end and trial start < busy.end); a busy interval ending exactly at the
trial start never conflicts, and in fact a busy interval ending at or
before the trial start can be dropped from the list without changing
any run of the finder's loop. -/
theorem conflict_test_half_open :
    (∀ (t pe : Int) (b : TimeInterval),
      conflictsWith t pe b = true ↔ (b.start < pe ∧ t < b.stop)) ∧
    (∀ (t pe : Int) (b : TimeInterval), b.stop = t → conflictsWith t pe b = false) ∧
    (∀ (busy : List TimeInterval) (dur buf sh eh dl : Int) (b : TimeInterval),
      0 ≤ sh → ∀ (fuel : Nat) (t : Int), b.stop ≤ t →
      fitLoop (b :: busy) dur buf sh eh dl fuel t =
        fitLoop busy dur buf sh eh dl fuel t) := by
  refine ⟨conflictsWith_iff, ?_, ?_⟩
  · intro t pe b hb
    simp [conflictsWith, hb]
  · intro busy dur buf sh eh dl b hsh fuel
    induction fuel with
    | zero => intro t ht; rfl
    | succ n ih =>
      intro t ht
      rw [fitLoop_one, fitLoop_one]
      by_cases hg : t < dl
      · simp only [if_pos hg]
        by_cases hpe : dl < t + (dur + buf)
        · simp only [if_pos hpe]
        · simp only [if_neg hpe]
          have hadv := advance_gt t sh hsh
          by_cases hwh : isWithinWorkingHours t sh eh = false
          · simp only [if_pos hwh]
            exact ih (advanceToNextWorkStart t sh) (by omega)
          · simp only [if_neg hwh]
            by_cases hrej : rejectsDayEnd t (t + (dur + buf)) eh = true
            · simp only [if_pos hrej]
              exact ih (advanceToNextWorkStart t sh) (by omega)
            · simp only [if_neg hrej]
              have hcb : conflictsWith t (t + (dur + buf)) b = false := by
                rw [Bool.eq_false_iff, Ne, conflictsWith_iff]
                intro hcontra
                omega
              rw [List.find?_cons_of_neg _ (by simp [hcb])]
              cases hfb : List.find? (conflictsWith t (t + (dur + buf))) busy with
              | none => simp [hfb]
              | some c =>
                simp only [hfb]
                have hc := (conflictsWith_iff _ _ _).mp (List.find?_some hfb)
                exact ih c.stop (by omega)
      · simp only [if_neg hg]

/-- Witness for C6: a busy interval ending exactly at the trial start
(minute 6300) is not a conflict, one ending a minute later is, and
dropping the former from the busy list leaves the loop unchanged. -/
theorem conflict_test_half_open_witness :
    conflictsWith 6300 6345 ⟨6200, 6301⟩ = true ∧
    conflictsWith 6300 6345 ⟨6200, 6300⟩ = false ∧
    fitLoop [⟨6200, 6300⟩] 30 15 9 17 8220 3 6300 =
      fitLoop [] 30 15 9 17 8220 3 6300 :=
  ⟨(conflict_test_half_open.1 6300 6345 ⟨6200, 6301⟩).mpr (by decide),
   conflict_test_half_open.2.1 6300 6345 ⟨6200, 6300⟩ (by decide),
   conflict_test_half_open.2.2 [] 30 15 9 17 8220 ⟨6200, 6300⟩ (by decide) 3 6300
     (by decide)⟩

/-- Claim C7, counterexample: the cursor is NOT monotone for every
outcome once a negative duration reaches the loop (the schema lets it
through, see C9): a single subtask of duration -300 starting from
Monday 12:00 is placed at 12:00 with end 07:00, and the cursor moves
BACKWARD from 6480 (12:00) to 6195 (07:15). -/
theorem negative_duration_cursor_decreases :
    (initState [] 6480).cursor = 6480 ∧
    (scheduleRun 12540 (initState [] 6480) [(-300, true)]).2 =
      [PlacementResult.placed ⟨6480, 6180⟩] ∧
    (scheduleRun 12540 (initState [] 6480) [(-300, true)]).1.cursor = 6195 ∧
    (6195 : Int) < 6480 := by decide

/-- Claim C7, amended: for positive durations the cursor is monotone
across iterations: whatever the outcome of one batch iteration (placed,
commit failure, or no slot found), the cursor after the iteration is at
least the cursor before it. -/
theorem cursor_monotone_step (dl : Int) (st : SchedState) (d : Int) (ok : Bool)
    (hd : 0 < d) : st.cursor ≤ (scheduleStep dl st d ok).1.cursor := by
  rcases hf : findEarliestFitSlot st.cursor d (toIntervals st.busy)
      SCHEDULING_WORK_DAY_START_HOUR SCHEDULING_WORK_DAY_END_HOUR
      SCHEDULING_BUFFER_MINUTES dl with _ | slot
  · simp [scheduleStep, hf]
  · have hmono := finder_mono
      (by norm_num [SCHEDULING_WORK_DAY_START_HOUR] :
        (0 : Int) ≤ SCHEDULING_WORK_DAY_START_HOUR) hf
    have hstop := (finder_spec hf).1
    cases ok
    · simp only [scheduleStep, hf]
      simp
    · simp only [scheduleStep, hf]
      simp only [SCHEDULING_BUFFER_MINUTES]
      simp
      omega

/-- Witness for the amended C7 theorem: a successful 30-minute placement
from Monday 09:00 moves the cursor forward. -/
theorem cursor_monotone_step_witness :
    (0 : Int) < 30 ∧ (initState [] 6300).cursor ≤
      (scheduleStep 12540 (initState [] 6300) 30 true).1.cursor :=
  ⟨by decide, cursor_monotone_step 12540 (initState [] 6300) 30 true (by decide)⟩

/-- Claim C8: when the finder returns null the batch loop only records
the subtask as unscheduled: the whole state (cursor, busy set, aliasing)
is returned unchanged, so the next request is searched from the same
cursor. -/
theorem no_slot_leaves_state_unchanged (dl : Int) (st : SchedState) (d : Int)
    (ok : Bool)
    (h : findEarliestFitSlot st.cursor d (toIntervals st.busy)
      SCHEDULING_WORK_DAY_START_HOUR SCHEDULING_WORK_DAY_END_HOUR
      SCHEDULING_BUFFER_MINUTES dl = none) :
    scheduleStep dl st d ok = (st, PlacementResult.unplacedNoSlot) := by
  simp [scheduleStep, h]

/-- Witness for C8: with the deadline equal to the cursor the finder
finds nothing and the state is unchanged. -/
theorem no_slot_leaves_state_unchanged_witness :
    findEarliestFitSlot (initState [] 6300).cursor 30
      (toIntervals (initState [] 6300).busy) SCHEDULING_WORK_DAY_START_HOUR
      SCHEDULING_WORK_DAY_END_HOUR SCHEDULING_BUFFER_MINUTES 6300 = none ∧
    scheduleStep 6300 (initState [] 6300) 30 true =
      (initState [] 6300, PlacementResult.unplacedNoSlot) :=
  ⟨by decide,
    no_slot_leaves_state_unchanged 6300 (initState [] 6300) 30 true (by decide)⟩

/-- Claim C9, counterexample: a zero duration passes the schema (only
integrality is checked) and the batch loop does invoke the Slot Finder
with it -- the call list records duration 0 at cursor 6300, and the run
even places a zero-length slot 09:00-09:00. -/
theorem nonpositive_duration_reaches_finder :
    subtaskSchemaAccepts 0 = true ∧
    scheduleRunCalls 12540 (initState [] 6300) [(0, true)] = [(6300, 0)] ∧
    (scheduleRun 12540 (initState [] 6300) [(0, true)]).2 =
      [PlacementResult.placed ⟨6300, 6300⟩] := by decide

/-- Claim C9, amended: the boundary schema checks only that
duration_minutes is an integer (no sign or positivity constraint), and
the batch loop calls the Slot Finder unconditionally once per subtask,
passing every duration through -- non-positive ones included. -/
theorem schema_checks_integrality_only :
    (∀ q : ℚ, subtaskSchemaAccepts q = true ↔ q.den = 1) ∧
    (∀ (dl : Int) (st : SchedState) (subs : List (Int × Bool)),
      List.map Prod.snd (scheduleRunCalls dl st subs) = List.map Prod.fst subs) := by
  constructor
  · intro q
    simp [subtaskSchemaAccepts]
  · intro dl st subs
    induction subs generalizing st with
    | nil => rfl
    | cons x rest ih =>
      obtain ⟨d, ok⟩ := x
      simp only [scheduleRunCalls, List.map, ih]

/-- Witness for the amended C9 theorem at duration -7. -/
theorem schema_checks_integrality_only_witness :
    (subtaskSchemaAccepts (-7) = true ↔ ((-7 : ℚ)).den = 1) ∧
    List.map Prod.snd (scheduleRunCalls 12540 (initState [] 6300) [(-7, true)]) =
      List.map Prod.fst [((-7 : Int), true)] :=
  ⟨schema_checks_integrality_only.1 (-7),
   schema_checks_integrality_only.2 12540 (initState [] 6300) [(-7, true)]⟩

/-- Claim C10: whenever the finder returns a slot, its start lies on a
weekday Monday (1) through Friday (5), whatever the hour parameters: the
weekday test is hard-coded in isWithinWorkingHours and every returned
start has passed it. -/
theorem placed_slot_starts_on_weekday (c dur : Int) (busy : List TimeInterval)
    (sh eh buf dl : Int) (s : TimeInterval)
    (h : findEarliestFitSlot c dur busy sh eh buf dl = some s) :
    1 ≤ getDay s.start ∧ getDay s.start ≤ 5 := by
  have hchecks := fitLoop_found_checks _ _ _ (findSlot_some_iff.mp h)
  have hwh := withinHours_props hchecks.2.1
  exact ⟨hwh.1, hwh.2.1⟩

/-- Witness for C10: the Tuesday slot found from Monday 08:00. -/
theorem placed_slot_starts_on_weekday_witness :
    1 ≤ getDay (⟨7740, 7770⟩ : TimeInterval).start ∧
      getDay (⟨7740, 7770⟩ : TimeInterval).start ≤ 5 :=
  placed_slot_starts_on_weekday 6240 30 [] 9 17 15 12540 ⟨7740, 7770⟩ (by decide)
